import Mathlib

/-!
# Verification of the bind9_rndc_rust wire codec and client logic

Shallow embedding of the RNDC (BIND remote name daemon control) client
library: the TLV wire encoder (`src/internal/encoder.rs`), the wire decoder
(`src/internal/decoder.rs`), the algorithm table (`src/internal/constants.rs`)
and the construction / response-interpretation logic of `RndcClient`
(`src/lib.rs`).

Bytes are modelled as `Nat` (values below 256 on all real inputs); Rust
`Vec<u8>` and `&[u8]` become `List Nat`; `IndexMap<String, V>` becomes an
ordered association list `List (List Nat × V)` whose keys are the UTF-8 bytes
of the Rust `String` (an `IndexMap` iterates in insertion order and holds each
key once).  Fallible Rust functions returning `Result<_, _>` become `RRes`,
which has a third outcome `crash` for a Rust panic (an out-of-bounds slice
index), so that panics are visible in the model instead of being lost.
-/

set_option maxRecDepth 8192

/-- Result of a fallible Rust computation: `ok`, an `Err` value, or a panic
(`crash`, e.g. an out-of-bounds slice index). -/
inductive RRes (ε : Type) (α : Type) where
  | ok (a : α)
  | err (e : ε)
  | crash
deriving DecidableEq, Repr

/-- Big-endian `u32` digits of `n % 2^32`, the model of
`(n as u32).to_be_bytes()`. -/
def u32be (n : Nat) : List Nat :=
  [n / 16777216 % 256, n / 65536 % 256, n / 256 % 256, n % 256]

/-- Model of `byteorder` reading a big-endian `u32` from four bytes (each
byte reduced mod 256; real wire bytes are below 256 already). -/
def be32dec : List Nat → Nat
  | [a, b, c, d] => a % 256 * 16777216 + b % 256 * 65536 + c % 256 * 256 + d % 256
  | _ => 0

theorem be32dec_u32be (n : Nat) : be32dec (u32be n) = n % 4294967296 := by
  simp only [u32be, be32dec]
  omega

theorem u32be_length (n : Nat) : (u32be n).length = 4 := rfl

/-- UTF-8 continuation byte, `0x80 ..= 0xBF`. -/
def utf8Cont (b : Nat) : Bool := 128 ≤ b && b ≤ 191

/-- Validity of a byte sequence as UTF-8, the acceptance condition of Rust
`String::from_utf8` (RFC 3629 table: no overlongs, no surrogates, at most
U+10FFFF). -/
def utf8Valid : List Nat → Bool
  | [] => true
  | b :: rest =>
    if b ≤ 127 then utf8Valid rest
    else if b ≤ 193 then false
    else if b ≤ 223 then
      match rest with
      | b1 :: r => utf8Cont b1 && utf8Valid r
      | [] => false
    else if b ≤ 239 then
      match rest with
      | b1 :: b2 :: r =>
          (if b = 224 then 160 ≤ b1 && b1 ≤ 191
           else if b = 237 then 128 ≤ b1 && b1 ≤ 159
           else utf8Cont b1) && utf8Cont b2 && utf8Valid r
      | _ => false
    else if b ≤ 244 then
      match rest with
      | b1 :: b2 :: b3 :: r =>
          (if b = 240 then 144 ≤ b1 && b1 ≤ 191
           else if b = 244 then 128 ≤ b1 && b1 ≤ 143
           else utf8Cont b1) && utf8Cont b2 && utf8Cont b3 && utf8Valid r
      | _ => false
    else false

/-- UTF-8 bytes of an ASCII string literal (every key and tag name used by the
library is ASCII, where UTF-8 coincides with the code points). -/
def ascii (s : String) : List Nat := s.data.map Char.toNat

/-- Standard base64 alphabet, index to ASCII code. -/
def b64char (n : Nat) : Nat :=
  if n < 26 then 65 + n
  else if n < 52 then 97 + (n - 26)
  else if n < 62 then 48 + (n - 52)
  else if n = 62 then 43
  else 47

/-- Standard base64 encoding with `=` padding
(`base64::engine::general_purpose::STANDARD.encode`), producing ASCII codes. -/
def b64encode : List Nat → List Nat
  | b0 :: b1 :: b2 :: rest =>
      let w := b0 % 256 * 65536 + b1 % 256 * 256 + b2 % 256
      b64char (w / 262144 % 64) :: b64char (w / 4096 % 64) ::
        b64char (w / 64 % 64) :: b64char (w % 64) :: b64encode rest
  | [b0, b1] =>
      let w := b0 % 256 * 1024 + b1 % 256 * 4
      [b64char (w / 4096 % 64), b64char (w / 64 % 64), b64char (w % 64), 61]
  | [b0] =>
      let w := b0 % 256 * 16
      [b64char (w / 64 % 64), b64char (w % 64), 61, 61]
  | [] => []

theorem b64encode_length (l : List Nat) :
    (b64encode l).length = 4 * ((l.length + 2) / 3) := by
  match l with
  | [] => rfl
  | [b0] => simp [b64encode]
  | [b0, b1] => simp [b64encode]
  | b0 :: b1 :: b2 :: rest =>
      have ih := b64encode_length rest
      simp only [b64encode, List.length_cons, ih]
      omega

/-- Inverse of the standard base64 alphabet on one ASCII code. -/
def b64inv (c : Nat) : Option Nat :=
  if 65 ≤ c ∧ c ≤ 90 then some (c - 65)
  else if 97 ≤ c ∧ c ≤ 122 then some (c - 71)
  else if 48 ≤ c ∧ c ≤ 57 then some (c + 4)
  else if c = 43 then some 62
  else if c = 47 then some 63
  else none

/-- Standard base64 decoding with canonical required padding
(`base64::engine::general_purpose::STANDARD.decode`): length must be a
multiple of four, `=` only at the end, trailing bits must be zero. -/
def b64decode : List Nat → Except String (List Nat)
  | [] => .ok []
  | c0 :: c1 :: c2 :: c3 :: rest =>
      match b64inv c0, b64inv c1 with
      | some a, some b =>
        if c2 = 61 then
          if c3 = 61 ∧ rest = [] then
            if b % 16 = 0 then .ok [a * 4 + b / 16]
            else .error "Invalid last symbol"
          else .error "Invalid byte"
        else
          match b64inv c2 with
          | some c =>
            if c3 = 61 then
              if rest = [] then
                if c % 4 = 0 then .ok [a * 4 + b / 16, b % 16 * 16 + c / 4]
                else .error "Invalid last symbol"
              else .error "Invalid byte"
            else
              match b64inv c3 with
              | some d =>
                  match b64decode rest with
                  | .ok tl => .ok ((a * 4 + b / 16) :: (b % 16 * 16 + c / 4) ::
                                    (c % 4 * 64 + d) :: tl)
                  | .error e => .error e
              | none => .error "Invalid byte"
          | none => .error "Invalid byte"
      | _, _ => .error "Invalid byte"
  | _ => .error "Invalid input length"

/-! ## Constants (`src/internal/constants.rs`) -/

def MSGTYPE_STRING : Nat := 0
def MSGTYPE_BINARYDATA : Nat := 1
def MSGTYPE_TABLE : Nat := 2
def MSGTYPE_LIST : Nat := 3

def ISCCC_ALG_HMAC_MD5 : Nat := 157
def ISCCC_ALG_HMAC_SHA1 : Nat := 161
def ISCCC_ALG_HMAC_SHA224 : Nat := 162
def ISCCC_ALG_HMAC_SHA256 : Nat := 163
def ISCCC_ALG_HMAC_SHA384 : Nat := 164
def ISCCC_ALG_HMAC_SHA512 : Nat := 165

/-- Supported RNDC HMAC algorithms (`enum RndcAlg`). -/
inductive RndcAlg where
  | MD5
  | SHA1
  | SHA224
  | SHA256
  | SHA384
  | SHA512
deriving DecidableEq, Repr

/-- `RndcAlg::from_string`: the case-exact alias table.  Errors carry the
`RndcError::InvalidAlgorithm` payload (see `RndcError` below); to keep the
dependency order simple the raw message string is produced here and wrapped by
the caller. -/
def RndcAlg.from_string (alg : String) : Except String RndcAlg :=
  if alg = "md5" then .ok .MD5
  else if alg = "hmd5" then .ok .MD5
  else if alg = "hmac-md5" then .ok .MD5
  else if alg = "sha1" then .ok .SHA1
  else if alg = "hsha1" then .ok .SHA1
  else if alg = "hmac-sha1" then .ok .SHA1
  else if alg = "sha224" then .ok .SHA224
  else if alg = "hsha224" then .ok .SHA224
  else if alg = "hmac-sha224" then .ok .SHA224
  else if alg = "sha256" then .ok .SHA256
  else if alg = "hsha256" then .ok .SHA256
  else if alg = "hmac-sha256" then .ok .SHA256
  else if alg = "sha384" then .ok .SHA384
  else if alg = "hsha384" then .ok .SHA384
  else if alg = "hmac-sha384" then .ok .SHA384
  else if alg = "sha512" then .ok .SHA512
  else if alg = "hsha512" then .ok .SHA512
  else if alg = "hmac-sha512" then .ok .SHA512
  else .error ("Unknown algorithm: " ++ alg)

/-- Numeric ISCCC code of an algorithm, as selected by `make_signature`. -/
def algCode : RndcAlg → Nat
  | .MD5 => ISCCC_ALG_HMAC_MD5
  | .SHA1 => ISCCC_ALG_HMAC_SHA1
  | .SHA224 => ISCCC_ALG_HMAC_SHA224
  | .SHA256 => ISCCC_ALG_HMAC_SHA256
  | .SHA384 => ISCCC_ALG_HMAC_SHA384
  | .SHA512 => ISCCC_ALG_HMAC_SHA512

/-- Digest size in bytes of the HMAC of each algorithm (MD5 16, SHA1 20,
SHA224 28, SHA256 32, SHA384 48, SHA512 64), as produced by the `md5`, `sha1`
and `sha2` crates. -/
def digestLen : RndcAlg → Nat
  | .MD5 => 16
  | .SHA1 => 20
  | .SHA224 => 28
  | .SHA256 => 32
  | .SHA384 => 48
  | .SHA512 => 64

/-! ## Encoder (`src/internal/encoder.rs`)

The HMAC computation itself lives in the external `hmac`/`md5`/`sha1`/`sha2`
crates; it enters the embedding as an abstract function
`hmac : RndcAlg → List Nat → List Nat → List Nat` (algorithm, secret key,
message to digest) about which theorems assume only the digest length. -/

/-- `enum RNDCValue` — the encoder input tree (no text node; tables keep
insertion order). -/
inductive RNDCValue where
  | Binary (b : List Nat)
  | Table (kvs : List (List Nat × RNDCValue))
  | List (vs : List RNDCValue)

/-- `raw_towire`: type byte, then the payload length as big-endian `u32`
(truncated mod 2^32 by the `as u32` cast), then the payload. -/
def raw_towire (type_byte : Nat) (buffer : List Nat) : List Nat :=
  type_byte :: u32be buffer.length ++ buffer

/-- `binary_towire`. -/
def binary_towire (val : List Nat) : List Nat :=
  raw_towire MSGTYPE_BINARYDATA val

/-- `key_towire`: one length byte (the `as u8` cast truncates the key length
mod 256) followed by the key bytes. -/
def key_towire (key : List Nat) : List Nat :=
  key.length % 256 :: key

mutual

/-- `value_towire`. -/
def value_towire : RNDCValue → List Nat
  | .List l => list_towire l
  | .Table m => table_towire m false
  | .Binary d => binary_towire d

/-- `list_towire`: concatenated element encodings wrapped in a list TLV. -/
def list_towire (vals : List RNDCValue) : List Nat :=
  raw_towire MSGTYPE_LIST (values_towire vals)

/-- Body of the `list_towire` loop: concatenation of the element encodings. -/
def values_towire : List RNDCValue → List Nat
  | [] => []
  | v :: rest => value_towire v ++ values_towire rest

/-- `table_towire`: concatenated `key_towire`/`value_towire` pairs, wrapped in
a table TLV unless `no_header`. -/
def table_towire (m : List (List Nat × RNDCValue)) (no_header : Bool) : List Nat :=
  if no_header then entries_towire m else raw_towire MSGTYPE_TABLE (entries_towire m)

/-- Body of the `table_towire` loop: concatenation of the entry encodings. -/
def entries_towire : List (List Nat × RNDCValue) → List Nat
  | [] => []
  | (k, v) :: rest => key_towire k ++ value_towire v ++ entries_towire rest

end

/-- `IndexMap::shift_remove`: drop the entry with the given key, keeping the
order of the others. -/
def shift_remove (k : List Nat) (m : List (List Nat × RNDCValue)) :
    List (List Nat × RNDCValue) :=
  m.filter (fun kv => !(kv.1 == k))

/-- Strip all trailing `=` (ASCII 61) characters,
`str::trim_end_matches('=')`. -/
def stripEq (l : List Nat) : List Nat :=
  (l.reverse.dropWhile (fun c => c == 61)).reverse

/-- `make_signature`: HMAC the headerless body, base64 the digest; for MD5
strip the padding and store under `hmd5`; otherwise store under `hsha` in a
zero-filled 89-byte buffer as code byte then base64 text.  The
`buf[1..(1 + sig_b64.len())]` indexing panics (`crash`) if the base64 text
does not fit. -/
def make_signature (hmac : RndcAlg → List Nat → List Nat → List Nat)
    (algorithm : RndcAlg) (secret : List Nat)
    (message_body : List (List Nat × RNDCValue)) : RRes String RNDCValue :=
  let databuf := table_towire message_body true
  let digest := hmac algorithm secret databuf
  match algorithm with
  | .MD5 =>
      let sig_b64 := stripEq (b64encode digest)
      .ok (.Table [(ascii "hmd5", .Binary sig_b64)])
  | _ =>
      let sig_b64 := b64encode digest
      if 1 + sig_b64.length ≤ 89 then
        .ok (.Table [(ascii "hsha",
          .Binary (algCode algorithm :: sig_b64 ++
                    List.replicate (89 - 1 - sig_b64.length) 0))])
      else .crash

/-- `encode`: strip `_auth`, serialize the body headerless, sign it, wrap the
signature as a headerless `Table containing _auth`, and emit
envelope header then auth block then body. -/
def encode (hmac : RndcAlg → List Nat → List Nat → List Nat)
    (algorithm : RndcAlg) (secret : List Nat)
    (obj : List (List Nat × RNDCValue)) : RRes String (List Nat) :=
  let obj2 := shift_remove (ascii "_auth") obj
  let databuf := table_towire obj2 true
  match make_signature hmac algorithm secret obj2 with
  | .ok sig_value =>
      let sigbuf := table_towire [(ascii "_auth", sig_value)] true
      let length := 8 + sigbuf.length + databuf.length
      .ok (u32be (length - 4) ++ u32be 1 ++ sigbuf ++ databuf)
  | .err e => .err e
  | .crash => .crash

/-! ## Decoder (`src/internal/decoder.rs`)

The Rust decoder walks a `Cursor` over the input slice; each TLV record is
parsed by taking the sub-slice `buffer[pos..pos + len]` and running the
payload parser on exactly that sub-slice, after which the cursor stands at
`pos + len`.  The embedding expresses the same control flow by splitting the
remaining byte list: the loop bodies of `table_fromwire`/`list_fromwire` read
the 5-byte TLV header, split off the declared payload (`crash` when the
declared length overruns the scope, where Rust panics on the slice index),
parse it completely, and continue on the remainder.  The loop accumulator
models the growing `IndexMap`/`Vec`. -/

/-- `enum RNDCPayload` — the decoder output tree; `String` holds the UTF-8
bytes of the decoded Rust string. -/
inductive RNDCPayload where
  | String (s : List Nat)
  | Binary (b : List Nat)
  | Table (kvs : List (List Nat × RNDCPayload))
  | List (vs : List RNDCPayload)

/-- `binary_fromwire` on its exact sub-slice: valid UTF-8 payloads become
`String`, others stay `Binary`. -/
def binary_fromwire (buf : List Nat) : RNDCPayload :=
  if utf8Valid buf then .String buf else .Binary buf

/-- `IndexMap::insert`: an existing key keeps its position and gets the new
value; a new key is appended. -/
def imInsert (k : List Nat) (v : RNDCPayload)
    (m : List (List Nat × RNDCPayload)) : List (List Nat × RNDCPayload) :=
  if m.any (fun kv => kv.1 == k) then
    m.map (fun kv => if kv.1 == k then (k, v) else kv)
  else m ++ [(k, v)]

mutual

/-- Dispatch of `value_fromwire` on the type byte, applied to the exact
payload sub-slice (the 5-byte TLV header has already been consumed by the
caller).  `fuel` makes the recursion structural so that the decoder is
kernel-computable; `decode` supplies fuel that is provably never exhausted
(`table_fromwire_no_fuel_err` below), so the `recursion limit` outcome is an
unreachable artifact of the embedding, not a behavior of the source. -/
def value_body (fuel : Nat) (t : Nat) (slice : List Nat) : RRes String RNDCPayload :=
  match fuel with
  | 0 => .err "recursion limit"
  | fuel + 1 =>
    if t = MSGTYPE_STRING ∨ t = MSGTYPE_BINARYDATA then .ok (binary_fromwire slice)
    else if t = MSGTYPE_TABLE then
      match table_fromwire fuel slice [] with
      | .ok m => .ok (.Table m)
      | .err e => .err e
      | .crash => .crash
    else if t = MSGTYPE_LIST then
      match list_fromwire fuel slice [] with
      | .ok l => .ok (.List l)
      | .err e => .err e
      | .crash => .crash
    else .err ("Unknown RNDC message type: " ++ toString t)

/-- `table_fromwire` loop over one table scope: read a key
(`key_fromwire`: one length byte, that many key bytes, UTF-8 check), read one
TLV value header, split off its declared payload (`crash` where Rust panics
on the out-of-range slice `buffer[pos..pos + len]`), parse it, insert,
continue until the scope is exhausted. -/
def table_fromwire (fuel : Nat) (buf : List Nat)
    (map : List (List Nat × RNDCPayload)) :
    RRes String (List (List Nat × RNDCPayload)) :=
  match fuel with
  | 0 => .err "recursion limit"
  | fuel + 1 =>
    match buf with
    | [] => .ok map
    | klen :: r =>
        if klen ≤ r.length then
          let key := r.take klen
          if utf8Valid key then
            match r.drop klen with
            | [] => .err "failed to fill whole buffer"
            | t :: r2 =>
                if 4 ≤ r2.length then
                  let len := be32dec (r2.take 4)
                  let r3 := r2.drop 4
                  if len ≤ r3.length then
                    match value_body fuel t (r3.take len) with
                    | .ok v => table_fromwire fuel (r3.drop len) (imInsert key v map)
                    | .err e => .err e
                    | .crash => .crash
                  else .crash
                else .err "failed to fill whole buffer"
          else .err "invalid utf-8 sequence"
        else .err "failed to fill whole buffer"

/-- `list_fromwire` loop over one list scope: read TLV values until the scope
is exhausted. -/
def list_fromwire (fuel : Nat) (buf : List Nat) (acc : List RNDCPayload) :
    RRes String (List RNDCPayload) :=
  match fuel with
  | 0 => .err "recursion limit"
  | fuel + 1 =>
    match buf with
    | [] => .ok acc
    | t :: r2 =>
        if 4 ≤ r2.length then
          let len := be32dec (r2.take 4)
          let r3 := r2.drop 4
          if len ≤ r3.length then
            match value_body fuel t (r3.take len) with
            | .ok v => list_fromwire fuel (r3.drop len) (acc ++ [v])
            | .err e => .err e
            | .crash => .crash
          else .crash
        else .err "failed to fill whole buffer"

end

/-- `decode`: check the envelope length word against the actual remaining
size, check version 1, then parse the rest as one headerless table scope. -/
def decode (buf : List Nat) : RRes String (List (List Nat × RNDCPayload)) :=
  if 4 ≤ buf.length then
    let len := be32dec (buf.take 4)
    if len ≠ buf.length - 4 then .err "RNDC buffer length mismatch"
    else
      let r := buf.drop 4
      if 4 ≤ r.length then
        let version := be32dec (r.take 4)
        if version ≠ 1 then
          .err ("Unknown RNDC protocol version: " ++ toString version)
        else table_fromwire (2 * (r.drop 4).length + 1) (r.drop 4) []
      else .err "failed to fill whole buffer"
  else .err "failed to fill whole buffer"

/-! ## Client (`src/lib.rs`, `src/error.rs`)

The TCP transport (`get_stream`, `read_packet`, `write_all`) is outside the
embedding; the pure logic of `RndcClient` is modelled on the packet bytes it
receives.  The crate declares `mod internal` whose `mod.rs` is not among the
given sources; the `?` operator applied to `decoder::decode(..)` in
`rndc_command` and `get_nonce` needs a `From<String> for RndcError`
conversion living there. -/

/-- `enum RndcError`. -/
inductive RndcError where
  | InvalidAlgorithm (msg : String)
  | Base64DecodeError (msg : String)
  | NetworkError (msg : String)
  | EncodingError (msg : String)
  | DecodingError (msg : String)
  | UnknownError (msg : String)
deriving DecidableEq, Repr

/-- Modelled from the spec: the `From<String> for RndcError` conversion used
by `?` on `decoder::decode` results is in the `internal` module file absent
from the sources; the spec classifies every decode failure (malformed wire
bytes) as `DecodingError`. -/
def rndcErrorOfString (e : String) : RndcError := .DecodingError e

/-- `struct RndcResult`; `text` and `err` hold the UTF-8 bytes of the decoded
strings. -/
structure RndcResult where
  result : Bool
  text : Option (List Nat)
  err : Option (List Nat)
deriving DecidableEq, Repr

/-- `struct RndcClient`. -/
structure RndcClient where
  server_url : String
  algorithm : RndcAlg
  secret_key : List Nat
deriving DecidableEq, Repr

/-- `RndcClient::new`: base64-decode the secret key (the first statement of
the function body), then parse the algorithm name while filling the struct. -/
def RndcClient.new (server_url : String) (algorithm : String)
    (secret_key_b64 : String) : Except RndcError RndcClient :=
  match b64decode (ascii secret_key_b64) with
  | .error e => .error (.Base64DecodeError e)
  | .ok secret_key =>
      match RndcAlg.from_string algorithm with
      | .error e => .error (.InvalidAlgorithm e)
      | .ok alg => .ok ⟨server_url, alg, secret_key⟩

/-- `IndexMap::get`: the value stored under a key. -/
def tableGet (m : List (List Nat × RNDCPayload)) (k : List Nat) :
    Option RNDCPayload :=
  (m.find? (fun kv => kv.1 == k)).map (fun kv => kv.2)

/-- Response interpretation tail of `RndcClient::rndc_command`
(src/lib.rs lines 93-128), applied to the packet bytes read from the wire:
decode, require a `_data` table, and read `result`/`text`/`err` out of it. -/
def interpret_command_response (res : List Nat) : RRes RndcError RndcResult :=
  match decode res with
  | .err e => .err (rndcErrorOfString e)
  | .crash => .crash
  | .ok resp =>
      match tableGet resp (ascii "_data") with
      | some (.Table data) =>
          let result : Option Bool :=
            match tableGet data (ascii "result") with
            | some (.String s) => some (s = ascii "0")
            | _ => none
          let text : Option (List Nat) :=
            match tableGet data (ascii "text") with
            | some (.String s) => some s
            | _ => none
          let err : Option (List Nat) :=
            match tableGet data (ascii "err") with
            | some (.String s) => some s
            | _ => none
          .ok ⟨result.getD false, text, err⟩
      | _ => .err (.DecodingError "Failed to parse status response")

/-- `RndcClient::get_nonce`: decode the handshake response and extract
`_ctrl._nonce` as a text value; anything else is a decoding error. -/
def get_nonce (packet : List Nat) : RRes RndcError (List Nat) :=
  match decode packet with
  | .err e => .err (rndcErrorOfString e)
  | .crash => .crash
  | .ok resp =>
      match tableGet resp (ascii "_ctrl") with
      | some (.Table ctrl_map) =>
          match tableGet ctrl_map (ascii "_nonce") with
          | some (.String new_nonce) => .ok new_nonce
          | _ => .err (.DecodingError "RNDC nonce not received")
      | _ => .err (.DecodingError "RNDC nonce not received")

/-! ## Specification-side definitions

These definitions restate, in the words of the specification, what the
encoder output should decode to; the theorems below compare them with the
source-derived functions. -/

/-- The envelope framing `encode` puts in front of a serialized body:
`(8 + len) - 4` as big-endian `u32`, then version `1`. -/
def frame (b : List Nat) : List Nat :=
  u32be (8 + b.length - 4) ++ u32be 1 ++ b

mutual

/-- Expected decoder image of an encoder value: `Binary` payloads that are
valid UTF-8 come back as `String`, everything else is preserved shapewise. -/
def convert : RNDCValue → RNDCPayload
  | .Binary b => if utf8Valid b then .String b else .Binary b
  | .Table kvs => .Table (convertTable kvs)
  | .List vs => .List (convertList vs)

/-- `convert`, entrywise on a table. -/
def convertTable : List (List Nat × RNDCValue) → List (List Nat × RNDCPayload)
  | [] => []
  | (k, v) :: rest => (k, convert v) :: convertTable rest

/-- `convert`, elementwise on a list. -/
def convertList : List RNDCValue → List RNDCPayload
  | [] => []
  | v :: rest => convert v :: convertList rest

end

/-- Keys of a table are pairwise distinct (the `IndexMap` invariant). -/
def nodupKeys : List (List Nat × RNDCValue) → Bool
  | [] => true
  | (k, _) :: rest => !(rest.any (fun kv => kv.1 == k)) && nodupKeys rest

mutual

/-- Well-formedness of an encoder tree for the round trip: every TLV payload
size fits a `u32`, every table key is at most 255 bytes (the length byte
cast), valid UTF-8 (a Rust `String` invariant) and unique in its table. -/
def wfV : RNDCValue → Bool
  | .Binary b => b.length < 4294967296
  | .Table kvs => wfT kvs && nodupKeys kvs && (entries_towire kvs).length < 4294967296
  | .List vs => wfL vs && (values_towire vs).length < 4294967296

/-- Well-formedness of the entries of a table. -/
def wfT : List (List Nat × RNDCValue) → Bool
  | [] => true
  | (k, v) :: rest => (k.length ≤ 255 : Bool) && utf8Valid k && wfV v && wfT rest

/-- Well-formedness of the elements of a list. -/
def wfL : List RNDCValue → Bool
  | [] => true
  | v :: rest => wfV v && wfL rest

end

/-- Type byte `value_towire` emits for a value. -/
def tagOf : RNDCValue → Nat
  | .Binary _ => MSGTYPE_BINARYDATA
  | .Table _ => MSGTYPE_TABLE
  | .List _ => MSGTYPE_LIST

/-- TLV payload `value_towire` emits for a value. -/
def payloadOf : RNDCValue → List Nat
  | .Binary b => b
  | .Table kvs => entries_towire kvs
  | .List vs => values_towire vs

/-- A digest function of the shape required by the signature hypotheses,
usable to instantiate the abstract HMAC in witnesses. -/
def hmacZero : RndcAlg → List Nat → List Nat → List Nat :=
  fun a _ _ => List.replicate (digestLen a) 0

/-! ## Claims -/

/-- C10: the encoder never rejects oversized input; the key length byte is
the key byte length reduced mod 256 (so a 256-byte key gets length byte 0
while its bytes are all emitted), and the TLV length word is the payload byte
length reduced mod 2^32 while the payload is emitted in full. -/
theorem encoder_length_truncation (key : List Nat) (t : Nat) (b : List Nat) :
    (key_towire key).head? = some (key.length % 256) ∧
    (key_towire key).drop 1 = key ∧
    be32dec ((raw_towire t b).drop 1 |>.take 4) = b.length % 4294967296 ∧
    (raw_towire t b).drop 5 = b ∧
    (key_towire (List.replicate 256 97)).head? = some 0 := by
  refine ⟨rfl, rfl, ?_, ?_, ?_⟩
  · show be32dec ((u32be b.length ++ b).take 4) = _
    rw [show (4 : Nat) = (u32be b.length).length from rfl, List.take_left,
        be32dec_u32be]
  · show (u32be b.length ++ b).drop 4 = b
    rw [show (4 : Nat) = (u32be b.length).length from rfl, List.drop_left]
  · simp [key_towire]

/-- C6: the decoder is not total on malformed input: a nested TLV record
whose declared length exceeds the bytes remaining in its scope drives the
slice index `buffer[pos..pos + len]` out of range, a Rust panic (`crash`),
instead of a typed error; an unknown type tag, by contrast, is reported as a
typed error value. -/
theorem decode_truncated_tlv_crash :
    decode [0, 0, 0, 11, 0, 0, 0, 1, 1, 97, 1, 0, 0, 0, 5] = .crash ∧
    decode [0, 0, 0, 11, 0, 0, 0, 1, 1, 97, 9, 0, 0, 0, 0] =
      .err "Unknown RNDC message type: 9" := ⟨rfl, rfl⟩

theorem shift_remove_idem (k : List Nat) (m : List (List Nat × RNDCValue)) :
    shift_remove k (shift_remove k m) = shift_remove k m := by
  simp [shift_remove, List.filter_filter]

/-- C4: `encode` strips any stale `_auth` entry before anything else, so
encoding a body with an `_auth` entry present gives the same signature and
the same output bytes as encoding the body with it absent. -/
theorem encode_stale_auth_idempotent
    (hmac : RndcAlg → List Nat → List Nat → List Nat) (alg : RndcAlg)
    (secret : List Nat) (obj : List (List Nat × RNDCValue)) :
    encode hmac alg secret obj =
      encode hmac alg secret (shift_remove (ascii "_auth") obj) ∧
    make_signature hmac alg secret (shift_remove (ascii "_auth") obj) =
      make_signature hmac alg secret
        (shift_remove (ascii "_auth") (shift_remove (ascii "_auth") obj)) := by
  have h := shift_remove_idem (ascii "_auth") obj
  constructor
  · simp only [encode, h]
  · rw [h]

/-- C5: `decode` rejects a buffer whose declared big-endian length word is
not the byte count after the length field with the length-mismatch error,
rejects version words other than 1 with the version-mismatch error, and
parses the body as a table scope only when both checks pass. -/
theorem decode_header_validation (buf : List Nat) :
    (4 ≤ buf.length → be32dec (buf.take 4) ≠ buf.length - 4 →
        decode buf = .err "RNDC buffer length mismatch") ∧
    (8 ≤ buf.length → be32dec (buf.take 4) = buf.length - 4 →
        be32dec ((buf.drop 4).take 4) ≠ 1 →
        decode buf = .err ("Unknown RNDC protocol version: " ++
                            toString (be32dec ((buf.drop 4).take 4)))) ∧
    (8 ≤ buf.length → be32dec (buf.take 4) = buf.length - 4 →
        be32dec ((buf.drop 4).take 4) = 1 →
        decode buf =
          table_fromwire (2 * (buf.drop 8).length + 1) (buf.drop 8) []) := by
  have hdd : (buf.drop 4).drop 4 = buf.drop 8 := by
    rw [List.drop_drop]
  refine ⟨?_, ?_, ?_⟩
  · intro h1 h2
    simp [decode, h1, h2]
  · intro h1 h2 h3
    have h4 : 4 ≤ buf.length := by omega
    have h5 : 4 ≤ buf.length - 4 := by omega
    simp [decode, h4, h5, h2, h3, List.length_drop]
  · intro h1 h2 h3
    have h4 : 4 ≤ buf.length := by omega
    have h5 : 4 ≤ buf.length - 4 := by omega
    simp [decode, h4, h5, h2, h3, hdd, List.length_drop]

theorem decode_header_validation_witness :
    decode [0, 0, 0, 5, 0, 0, 0, 1] = .err "RNDC buffer length mismatch" ∧
    decode [0, 0, 0, 4, 0, 0, 0, 2] =
      .err ("Unknown RNDC protocol version: " ++ toString 2) ∧
    decode [0, 0, 0, 4, 0, 0, 0, 1] =
      table_fromwire 1 ([] : List Nat) [] :=
  ⟨(decode_header_validation _).1 (by decide) (by decide),
   (decode_header_validation _).2.1 (by decide) (by decide) (by decide),
   (decode_header_validation _).2.2 (by decide) (by decide) (by decide)⟩

/-- The exact alias strings `RndcAlg::from_string` accepts, with their
meanings: bare name, `h` plus short form, `hmac-` plus full name. -/
def aliasPairs : List (String × RndcAlg) :=
  [("md5", .MD5), ("hmd5", .MD5), ("hmac-md5", .MD5),
   ("sha1", .SHA1), ("hsha1", .SHA1), ("hmac-sha1", .SHA1),
   ("sha224", .SHA224), ("hsha224", .SHA224), ("hmac-sha224", .SHA224),
   ("sha256", .SHA256), ("hsha256", .SHA256), ("hmac-sha256", .SHA256),
   ("sha384", .SHA384), ("hsha384", .SHA384), ("hmac-sha384", .SHA384),
   ("sha512", .SHA512), ("hsha512", .SHA512), ("hmac-sha512", .SHA512)]

instance {ε α : Type} [DecidableEq ε] [DecidableEq α] :
    DecidableEq (Except ε α) := fun x y =>
  match x, y with
  | .ok a, .ok b => decidable_of_iff (a = b) (by simp)
  | .error e, .error f => decidable_of_iff (e = f) (by simp)
  | .ok _, .error _ => isFalse (by simp)
  | .error _, .ok _ => isFalse (by simp)

theorem alias_foldr_ok_iff (l : List (String × RndcAlg))
    (hnd : (l.map Prod.fst).Nodup) (alg : String) (a : RndcAlg)
    (m : String) :
    l.foldr (fun p acc => if alg = p.1 then Except.ok p.2 else acc)
        (Except.error m) = .ok a ↔ (alg, a) ∈ l := by
  induction l with
  | nil => simp
  | cons p rest ih =>
      obtain ⟨ps, pa⟩ := p
      simp only [List.map_cons, List.nodup_cons] at hnd
      simp only [List.foldr_cons, List.mem_cons]
      by_cases hp : alg = ps
      · subst hp
        simp only [if_pos rfl, Prod.mk.injEq, true_and]
        constructor
        · intro h
          injection h with h0
          subst h0
          exact Or.inl rfl
        · rintro (rfl | hmem)
          · rfl
          · exact absurd (List.mem_map_of_mem Prod.fst hmem) hnd.1
      · rw [if_neg hp, ih hnd.2]
        constructor
        · exact Or.inr
        · rintro (heq | hmem)
          · injection heq with h1 h2
            exact absurd h1 hp
          · exact hmem

theorem alias_foldr_total (l : List (String × RndcAlg)) (alg m : String) :
    (∃ a, l.foldr (fun p acc => if alg = p.1 then Except.ok p.2 else acc)
            (Except.error m) = .ok a) ∨
      l.foldr (fun p acc => if alg = p.1 then Except.ok p.2 else acc)
          (Except.error m) = .error m := by
  induction l with
  | nil => simp
  | cons p rest ih =>
      simp only [List.foldr_cons]
      by_cases hp : alg = p.1
      · exact Or.inl ⟨p.2, by rw [if_pos hp]⟩
      · rw [if_neg hp]
        exact ih

theorem from_string_as_foldr (alg : String) :
    RndcAlg.from_string alg =
      aliasPairs.foldr (fun p acc => if alg = p.1 then Except.ok p.2 else acc)
        (.error ("Unknown algorithm: " ++ alg)) := rfl

theorem from_string_ok_iff (alg : String) (a : RndcAlg) :
    RndcAlg.from_string alg = .ok a ↔ (alg, a) ∈ aliasPairs := by
  rw [from_string_as_foldr]
  exact alias_foldr_ok_iff aliasPairs (by decide) alg a _

theorem from_string_total (alg : String) :
    (∃ a, RndcAlg.from_string alg = .ok a) ∨
      RndcAlg.from_string alg = .error ("Unknown algorithm: " ++ alg) := by
  rw [from_string_as_foldr]
  exact alias_foldr_total aliasPairs alg _

/-- C9 counterexample: with an unknown algorithm name and a malformed base64
key, construction fails with `Base64DecodeError`, not `InvalidAlgorithm`: the
secret key is decoded before the algorithm name is parsed. -/
theorem new_unknown_alg_bad_key :
    RndcClient.new "127.0.0.1:953" "foo" "!!!" =
      .error (.Base64DecodeError "Invalid input length") := by decide

/-- C9 (amended): `RndcClient::new` base64-decodes the secret key first, so a
malformed key fails with `Base64DecodeError` regardless of the algorithm
name; an algorithm name outside the case-exact alias table fails with
`InvalidAlgorithm` whenever the key is valid base64; both valid gives the
client; and `from_string` accepts exactly the alias table. -/
theorem new_error_order (server alg key : String) (a : RndcAlg) :
    (∀ e, b64decode (ascii key) = .error e →
        RndcClient.new server alg key = .error (.Base64DecodeError e)) ∧
    (∀ k2, b64decode (ascii key) = .ok k2 →
        (∀ a2, RndcAlg.from_string alg ≠ .ok a2) →
        RndcClient.new server alg key =
          .error (.InvalidAlgorithm ("Unknown algorithm: " ++ alg))) ∧
    (∀ k2, b64decode (ascii key) = .ok k2 → RndcAlg.from_string alg = .ok a →
        RndcClient.new server alg key = .ok ⟨server, a, k2⟩) ∧
    (RndcAlg.from_string alg = .ok a ↔ (alg, a) ∈ aliasPairs) := by
  refine ⟨?_, ?_, ?_, from_string_ok_iff alg a⟩
  · intro e he
    simp [RndcClient.new, he]
  · intro k2 hk hno
    rcases from_string_total alg with ⟨a2, ha2⟩ | herr
    · exact absurd ha2 (hno a2)
    · simp [RndcClient.new, hk, herr]
  · intro k2 hk ha
    simp [RndcClient.new, hk, ha]

theorem new_error_order_witness :
    RndcClient.new "127.0.0.1:953" "sha256" "AAAA" =
      .ok ⟨"127.0.0.1:953", .SHA256, [0, 0, 0]⟩ ∧
    RndcClient.new "127.0.0.1:953" "foo" "AAAA" =
      .error (.InvalidAlgorithm "Unknown algorithm: foo") :=
  ⟨(new_error_order "127.0.0.1:953" "sha256" "AAAA" .SHA256).2.2.1
      [0, 0, 0] (by decide) (by decide),
   (new_error_order "127.0.0.1:953" "foo" "AAAA" .MD5).2.1
      [0, 0, 0] (by decide)
      (fun a2 h => by
        rw [show RndcAlg.from_string "foo" =
              Except.error "Unknown algorithm: foo" by decide] at h
        exact Except.noConfusion h)⟩

/-- What `make_signature` should produce, stated in the words of the spec:
for MD5 a `hmd5` entry holding the padding-stripped base64 digest text, for
the SHA family an `hsha` entry holding the algorithm code byte, the padded
base64 digest text, and zero fill up to 89 bytes. -/
def sig_value_spec (hmac : RndcAlg → List Nat → List Nat → List Nat)
    (alg : RndcAlg) (secret : List Nat)
    (body : List (List Nat × RNDCValue)) : RNDCValue :=
  let digest := hmac alg secret (table_towire body true)
  match alg with
  | .MD5 => .Table [(ascii "hmd5", .Binary (stripEq (b64encode digest)))]
  | _ => .Table [(ascii "hsha",
      .Binary (algCode alg :: b64encode digest ++
                List.replicate (88 - (b64encode digest).length) 0))]

theorem make_signature_eval (hmac : RndcAlg → List Nat → List Nat → List Nat)
    (alg : RndcAlg) (secret : List Nat) (body : List (List Nat × RNDCValue))
    (hH : (hmac alg secret (table_towire body true)).length = digestLen alg) :
    make_signature hmac alg secret body =
      .ok (sig_value_spec hmac alg secret body) := by
  cases alg
  case MD5 => simp [make_signature, sig_value_spec]
  case SHA1 =>
    have hlen : (b64encode (hmac .SHA1 secret (table_towire body true))).length = 28 := by
      rw [b64encode_length, hH]; rfl
    simp [make_signature, sig_value_spec, hlen]
  case SHA224 =>
    have hlen : (b64encode (hmac .SHA224 secret (table_towire body true))).length = 40 := by
      rw [b64encode_length, hH]; rfl
    simp [make_signature, sig_value_spec, hlen]
  case SHA256 =>
    have hlen : (b64encode (hmac .SHA256 secret (table_towire body true))).length = 44 := by
      rw [b64encode_length, hH]; rfl
    simp [make_signature, sig_value_spec, hlen]
  case SHA384 =>
    have hlen : (b64encode (hmac .SHA384 secret (table_towire body true))).length = 64 := by
      rw [b64encode_length, hH]; rfl
    simp [make_signature, sig_value_spec, hlen]
  case SHA512 =>
    have hlen : (b64encode (hmac .SHA512 secret (table_towire body true))).length = 88 := by
      rw [b64encode_length, hH]; rfl
    simp [make_signature, sig_value_spec, hlen]

/-- C3: for every secret key and body, the auth block packs the digest as the
claim states: MD5 maps `hmd5` to the padding-stripped base64 text; the SHA
family maps `hsha` to an 89-byte value with the algorithm code
(SHA1 161, SHA224 162, SHA256 163, SHA384 164, SHA512 165) in byte 0, the
padded base64 text after it, and zeros to the end. -/
theorem make_signature_packing (hmac : RndcAlg → List Nat → List Nat → List Nat)
    (alg : RndcAlg) (secret : List Nat) (body : List (List Nat × RNDCValue))
    (hH : (hmac alg secret (table_towire body true)).length = digestLen alg) :
    (alg = .MD5 → make_signature hmac alg secret body =
        .ok (.Table [(ascii "hmd5", .Binary
          (stripEq (b64encode (hmac alg secret (table_towire body true)))))])) ∧
    (alg ≠ .MD5 →
        make_signature hmac alg secret body =
          .ok (.Table [(ascii "hsha", .Binary
            (algCode alg :: b64encode (hmac alg secret (table_towire body true)) ++
              List.replicate
                (88 - (b64encode (hmac alg secret (table_towire body true))).length)
                0))]) ∧
        (algCode alg :: b64encode (hmac alg secret (table_towire body true)) ++
          List.replicate
            (88 - (b64encode (hmac alg secret (table_towire body true))).length)
            0).length = 89) ∧
    algCode .SHA1 = 161 ∧ algCode .SHA224 = 162 ∧ algCode .SHA256 = 163 ∧
    algCode .SHA384 = 164 ∧ algCode .SHA512 = 165 := by
  refine ⟨?_, ?_, rfl, rfl, rfl, rfl, rfl⟩
  · intro h
    subst h
    rw [make_signature_eval hmac .MD5 secret body hH]
    rfl
  · intro hne
    rw [make_signature_eval hmac alg secret body hH]
    cases alg
    case MD5 => exact absurd rfl hne
    case SHA1 =>
      have hlen : (b64encode (hmac .SHA1 secret (table_towire body true))).length = 28 := by
        rw [b64encode_length, hH]; rfl
      exact ⟨rfl, by simp [hlen]⟩
    case SHA224 =>
      have hlen : (b64encode (hmac .SHA224 secret (table_towire body true))).length = 40 := by
        rw [b64encode_length, hH]; rfl
      exact ⟨rfl, by simp [hlen]⟩
    case SHA256 =>
      have hlen : (b64encode (hmac .SHA256 secret (table_towire body true))).length = 44 := by
        rw [b64encode_length, hH]; rfl
      exact ⟨rfl, by simp [hlen]⟩
    case SHA384 =>
      have hlen : (b64encode (hmac .SHA384 secret (table_towire body true))).length = 64 := by
        rw [b64encode_length, hH]; rfl
      exact ⟨rfl, by simp [hlen]⟩
    case SHA512 =>
      have hlen : (b64encode (hmac .SHA512 secret (table_towire body true))).length = 88 := by
        rw [b64encode_length, hH]; rfl
      exact ⟨rfl, by simp [hlen]⟩

theorem make_signature_packing_witness :
    make_signature hmacZero .SHA256 [] [] =
      .ok (.Table [(ascii "hsha", .Binary
        (algCode .SHA256 :: b64encode (hmacZero .SHA256 [] (table_towire [] true)) ++
          List.replicate
            (88 - (b64encode (hmacZero .SHA256 [] (table_towire [] true))).length)
            0))]) ∧
    (algCode .SHA256 :: b64encode (hmacZero .SHA256 [] (table_towire [] true)) ++
      List.replicate
        (88 - (b64encode (hmacZero .SHA256 [] (table_towire [] true))).length)
        0).length = 89 :=
  (make_signature_packing hmacZero .SHA256 [] [] rfl).2.1 (by decide)

/-- C2: message-level encode returns exactly the envelope header — the
big-endian `u32` value `(8 + len(authBytes) + len(bodyBytes)) - 4` then the
big-endian `u32` value 1 — followed by the headerless serialization of
`Table containing _auth mapped to the signature block` and the headerless
serialization of the `_auth`-stripped body. -/
theorem encode_message_layout (hmac : RndcAlg → List Nat → List Nat → List Nat)
    (alg : RndcAlg) (secret : List Nat) (obj : List (List Nat × RNDCValue))
    (hH : (hmac alg secret
            (table_towire (shift_remove (ascii "_auth") obj) true)).length =
          digestLen alg) :
    encode hmac alg secret obj =
      .ok (u32be (8 +
            (table_towire [(ascii "_auth",
              sig_value_spec hmac alg secret (shift_remove (ascii "_auth") obj))]
              true).length +
            (table_towire (shift_remove (ascii "_auth") obj) true).length - 4) ++
          u32be 1 ++
          table_towire [(ascii "_auth",
            sig_value_spec hmac alg secret (shift_remove (ascii "_auth") obj))]
            true ++
          table_towire (shift_remove (ascii "_auth") obj) true) := by
  have hsig := make_signature_eval hmac alg secret
    (shift_remove (ascii "_auth") obj) hH
  simp only [encode, hsig]

theorem encode_message_layout_witness :
    encode hmacZero .MD5 [] [] =
      .ok (u32be (8 +
            (table_towire [(ascii "_auth",
              sig_value_spec hmacZero .MD5 [] (shift_remove (ascii "_auth") []))]
              true).length +
            (table_towire (shift_remove (ascii "_auth") []) true).length - 4) ++
          u32be 1 ++
          table_towire [(ascii "_auth",
            sig_value_spec hmacZero .MD5 [] (shift_remove (ascii "_auth") []))]
            true ++
          table_towire (shift_remove (ascii "_auth") []) true) :=
  encode_message_layout hmacZero .MD5 [] [] rfl

/-- C7: when a decoded command response has a `_data` table, the command
result has `succeeded` true exactly when `_data.result` is the text `0`
(false on any other text, absence, or a non-text value), `text` set to
`_data.text` when that is a text value and `None` otherwise, and `err` set to
`_data.err` likewise; a response with no `_data` table fails with the
status-parse decoding error. -/
theorem rndc_command_interpretation (res : List Nat)
    (resp data : List (List Nat × RNDCPayload))
    (hdec : decode res = .ok resp) :
    (tableGet resp (ascii "_data") = some (.Table data) →
      interpret_command_response res = .ok
        ⟨(match tableGet data (ascii "result") with
          | some (.String s) => decide (s = ascii "0")
          | _ => false),
         (match tableGet data (ascii "text") with
          | some (.String s) => some s
          | _ => none),
         (match tableGet data (ascii "err") with
          | some (.String s) => some s
          | _ => none)⟩ ∧
      ((match tableGet data (ascii "result") with
        | some (.String s) => decide (s = ascii "0")
        | _ => false) = true ↔
        tableGet data (ascii "result") = some (.String (ascii "0")))) ∧
    ((∀ d, tableGet resp (ascii "_data") ≠ some (.Table d)) →
      interpret_command_response res =
        .err (.DecodingError "Failed to parse status response")) := by
  constructor
  · intro hdata
    constructor
    · have hr : (match tableGet data (ascii "result") with
          | some (.String s) => some (decide (s = ascii "0"))
          | _ => none).getD false =
          (match tableGet data (ascii "result") with
          | some (.String s) => decide (s = ascii "0")
          | _ => false) := by
        cases tableGet data (ascii "result") with
        | none => rfl
        | some p => cases p <;> rfl
      simp only [interpret_command_response, hdec, hdata, hr]
    · cases hres : tableGet data (ascii "result") with
      | none => simp
      | some p =>
          cases p with
          | String s =>
              constructor
              · intro h
                rw [of_decide_eq_true h]
              · intro h
                injection h with h0
                injection h0 with h1
                exact decide_eq_true h1
          | Binary b => simp
          | Table t => simp
          | List l => simp
  · intro hno
    simp only [interpret_command_response, hdec]

theorem rndc_command_interpretation_witness :
    interpret_command_response
      [0, 0, 0, 28, 0, 0, 0, 1,
       5, 95, 100, 97, 116, 97, 2, 0, 0, 0, 13,
       6, 114, 101, 115, 117, 108, 116, 1, 0, 0, 0, 1, 48] =
      .ok ⟨true, none, none⟩ :=
  ((rndc_command_interpretation
      [0, 0, 0, 28, 0, 0, 0, 1,
       5, 95, 100, 97, 116, 97, 2, 0, 0, 0, 13,
       6, 114, 101, 115, 117, 108, 116, 1, 0, 0, 0, 1, 48]
      [(ascii "_data", .Table [(ascii "result", .String [48])])]
      [(ascii "result", .String [48])] rfl).1 rfl).1

/-- C8: the handshake nonce extraction returns exactly the `_ctrl._nonce`
text value when the decoded response has one, and fails with the
`RNDC nonce not received` decoding error — never a default nonce — when the
decoded table lacks a `_ctrl` table with a text `_nonce` entry. -/
theorem get_nonce_extraction (packet : List Nat)
    (resp : List (List Nat × RNDCPayload))
    (hdec : decode packet = .ok resp) :
    (∀ ctrl n, tableGet resp (ascii "_ctrl") = some (.Table ctrl) →
        tableGet ctrl (ascii "_nonce") = some (.String n) →
        get_nonce packet = .ok n) ∧
    ((∀ ctrl n, ¬(tableGet resp (ascii "_ctrl") = some (.Table ctrl) ∧
        tableGet ctrl (ascii "_nonce") = some (.String n))) →
      get_nonce packet = .err (.DecodingError "RNDC nonce not received")) := by
  constructor
  · intro ctrl n h1 h2
    simp only [get_nonce, hdec, h1, h2]
  · intro hno
    cases hc : tableGet resp (ascii "_ctrl") with
    | none => simp [get_nonce, hdec, hc]
    | some p =>
        cases p with
        | String s => simp [get_nonce, hdec, hc]
        | Binary b => simp [get_nonce, hdec, hc]
        | List l => simp [get_nonce, hdec, hc]
        | Table ctrl =>
            cases hn : tableGet ctrl (ascii "_nonce") with
            | none => simp [get_nonce, hdec, hc, hn]
            | some q =>
                cases q with
                | String n => exact absurd ⟨hc, hn⟩ (hno ctrl n)
                | Binary b => simp [get_nonce, hdec, hc, hn]
                | Table t => simp [get_nonce, hdec, hc, hn]
                | List l => simp [get_nonce, hdec, hc, hn]

theorem get_nonce_extraction_witness :
    get_nonce
      [0, 0, 0, 28, 0, 0, 0, 1,
       5, 95, 99, 116, 114, 108, 2, 0, 0, 0, 13,
       6, 95, 110, 111, 110, 99, 101, 1, 0, 0, 0, 1, 120] = .ok [120] :=
  (get_nonce_extraction
      [0, 0, 0, 28, 0, 0, 0, 1,
       5, 95, 99, 116, 114, 108, 2, 0, 0, 0, 13,
       6, 95, 110, 111, 110, 99, 101, 1, 0, 0, 0, 1, 120]
      [(ascii "_ctrl", .Table [(ascii "_nonce", .String [120])])] rfl).1
    [(ascii "_nonce", .String [120])] [120] rfl rfl

theorem value_towire_eq (v : RNDCValue) :
    value_towire v = tagOf v :: u32be (payloadOf v).length ++ payloadOf v := by
  cases v with
  | Binary b => simp [value_towire, binary_towire, raw_towire, tagOf, payloadOf]
  | Table kvs => simp [value_towire, table_towire, raw_towire, tagOf, payloadOf]
  | List vs => simp [value_towire, list_towire, raw_towire, tagOf, payloadOf]

theorem payloadOf_lt (v : RNDCValue) (hw : wfV v = true) :
    (payloadOf v).length < 4294967296 := by
  cases v with
  | Binary b =>
      simp only [wfV, decide_eq_true_eq] at hw
      exact hw
  | Table kvs =>
      simp only [wfV, Bool.and_eq_true, decide_eq_true_eq] at hw
      exact hw.2
  | List vs =>
      simp only [wfV, Bool.and_eq_true, decide_eq_true_eq] at hw
      exact hw.2

theorem imInsert_not_mem (k : List Nat) (v : RNDCPayload)
    (m : List (List Nat × RNDCPayload))
    (h : m.any (fun kv => kv.1 == k) = false) :
    imInsert k v m = m ++ [(k, v)] := by
  simp only [imInsert, h]
  rfl

/-- The decoder inverts the encoder scope by scope: with enough fuel (which
`decode` always supplies), a well-formed encoded value body, table scope or
list scope parses back to its `convert` image, tables accumulating onto any
map whose keys are disjoint from theirs. -/
theorem fromwire_towire (fuel : Nat) :
    (∀ v, wfV v = true → 2 * (payloadOf v).length + 2 ≤ fuel →
        value_body fuel (tagOf v) (payloadOf v) = .ok (convert v)) ∧
    (∀ kvs map, wfT kvs = true → nodupKeys kvs = true →
        (∀ x ∈ kvs, map.any (fun kv => kv.1 == x.1) = false) →
        2 * (entries_towire kvs).length + 1 ≤ fuel →
        table_fromwire fuel (entries_towire kvs) map =
          .ok (map ++ convertTable kvs)) ∧
    (∀ vs acc, wfL vs = true →
        2 * (values_towire vs).length + 1 ≤ fuel →
        list_fromwire fuel (values_towire vs) acc =
          .ok (acc ++ convertList vs)) := by
  induction fuel with
  | zero =>
      refine ⟨?_, ?_, ?_⟩
      · intro v _ hb; omega
      · intro kvs map _ _ _ hb; omega
      · intro vs acc _ hb; omega
  | succ fuel ih =>
      obtain ⟨ihv, iht, ihl⟩ := ih
      refine ⟨?_, ?_, ?_⟩
      · intro v hw hb
        cases v with
        | Binary b =>
            simp [value_body, tagOf, payloadOf, MSGTYPE_STRING,
                  MSGTYPE_BINARYDATA, binary_fromwire, convert]
        | Table kvs =>
            simp only [wfV, Bool.and_eq_true, decide_eq_true_eq] at hw
            obtain ⟨⟨hwt, hnd⟩, hlen⟩ := hw
            simp only [payloadOf] at hb
            have hcall := iht kvs [] hwt hnd (by intro x hx; rfl) (by omega)
            simp [value_body, tagOf, payloadOf, MSGTYPE_STRING,
                  MSGTYPE_BINARYDATA, MSGTYPE_TABLE, hcall, convert]
        | List vs =>
            simp only [wfV, Bool.and_eq_true, decide_eq_true_eq] at hw
            obtain ⟨hwl, hlen⟩ := hw
            simp only [payloadOf] at hb
            have hcall := ihl vs [] hwl (by omega)
            simp [value_body, tagOf, payloadOf, MSGTYPE_STRING,
                  MSGTYPE_BINARYDATA, MSGTYPE_TABLE, MSGTYPE_LIST, hcall, convert]
      · intro kvs map hwt hnd hdisj hb
        cases kvs with
        | nil => simp [entries_towire, table_fromwire, convertTable]
        | cons hd tl =>
            obtain ⟨k, v⟩ := hd
            simp only [wfT, Bool.and_eq_true, decide_eq_true_eq] at hwt
            obtain ⟨⟨⟨hk255, hkutf⟩, hwv⟩, hwtl⟩ := hwt
            simp only [nodupKeys, Bool.and_eq_true, Bool.not_eq_true'] at hnd
            obtain ⟨hno, hndtl⟩ := hnd
            have hkeq : k.length % 256 = k.length := Nat.mod_eq_of_lt (by omega)
            have hent : entries_towire ((k, v) :: tl) =
                k.length :: (k ++ (value_towire v ++ entries_towire tl)) := by
              simp [entries_towire, key_towire, hkeq, List.append_assoc]
            have hval_len : (value_towire v).length = 5 + (payloadOf v).length := by
              rw [value_towire_eq]
              simp [u32be_length]
              omega
            have hbs : 2 * (payloadOf v).length + 2 ≤ fuel ∧
                2 * (entries_towire tl).length + 1 ≤ fuel := by
              rw [hent] at hb
              simp only [List.length_cons, List.length_append, hval_len] at hb
              omega
            have hg1 : k.length ≤ (k ++ (value_towire v ++ entries_towire tl)).length := by
              simp
            have htake : (k ++ (value_towire v ++ entries_towire tl)).take k.length = k :=
              List.take_left k _
            have hdrop : (k ++ (value_towire v ++ entries_towire tl)).drop k.length =
                value_towire v ++ entries_towire tl :=
              List.drop_left k _
            have hg2 : 4 ≤ (u32be (payloadOf v).length ++
                (payloadOf v ++ entries_towire tl)).length := by
              simp [u32be_length]
            have htake4 : (u32be (payloadOf v).length ++
                (payloadOf v ++ entries_towire tl)).take 4 = u32be (payloadOf v).length :=
              List.take_left' (u32be_length _)
            have hdrop4 : (u32be (payloadOf v).length ++
                (payloadOf v ++ entries_towire tl)).drop 4 =
                payloadOf v ++ entries_towire tl :=
              List.drop_left' (u32be_length _)
            have hbe : be32dec (u32be (payloadOf v).length) = (payloadOf v).length := by
              rw [be32dec_u32be]
              exact Nat.mod_eq_of_lt (payloadOf_lt v hwv)
            have hg3 : (payloadOf v).length ≤ (payloadOf v ++ entries_towire tl).length := by
              simp
            have htakeP : (payloadOf v ++ entries_towire tl).take (payloadOf v).length =
                payloadOf v := List.take_left _ _
            have hdropP : (payloadOf v ++ entries_towire tl).drop (payloadOf v).length =
                entries_towire tl := List.drop_left _ _
            have hvb : value_body fuel (tagOf v) (payloadOf v) = .ok (convert v) :=
              ihv v hwv (by omega)
            have him : imInsert k (convert v) map = map ++ [(k, convert v)] :=
              imInsert_not_mem _ _ _ (hdisj (k, v) (List.mem_cons_self _ _))
            have hdisj2 : ∀ x ∈ tl,
                (map ++ [(k, convert v)]).any (fun kv => kv.1 == x.1) = false := by
              intro x hx
              rw [List.any_append, hdisj x (List.mem_cons_of_mem _ hx)]
              simp only [List.any_cons, List.any_nil, Bool.or_false, Bool.false_or]
              have hxk := (List.any_eq_false.mp hno) x hx
              simp only [beq_eq_false_iff_ne, ne_eq]
              simp only [beq_iff_eq] at hxk
              exact fun h => hxk h.symm
            have hrec : table_fromwire fuel (entries_towire tl)
                (map ++ [(k, convert v)]) =
                .ok ((map ++ [(k, convert v)]) ++ convertTable tl) :=
              iht tl _ hwtl hndtl hdisj2 (by omega)
            rw [hent]
            simp only [table_fromwire]
            rw [if_pos hg1, htake, if_pos hkutf, hdrop, value_towire_eq v]
            simp only [List.cons_append, List.append_assoc]
            rw [if_pos hg2, htake4, hbe, hdrop4, if_pos hg3, htakeP, hdropP]
            simp only [hvb, him, hrec]
            simp [convertTable, List.append_assoc]
      · intro vs acc hwl hb
        cases vs with
        | nil => simp [values_towire, list_fromwire, convertList]
        | cons v tl =>
            simp only [wfL, Bool.and_eq_true] at hwl
            obtain ⟨hwv, hwtl⟩ := hwl
            have hval_len : (value_towire v).length = 5 + (payloadOf v).length := by
              rw [value_towire_eq]
              simp [u32be_length]
              omega
            have hb2 : 2 * ((value_towire v).length + (values_towire tl).length) + 1 ≤
                fuel + 1 := by
              simp only [values_towire, List.length_append] at hb
              omega
            have hg2 : 4 ≤ (u32be (payloadOf v).length ++
                (payloadOf v ++ values_towire tl)).length := by
              simp [u32be_length]
            have htake4 : (u32be (payloadOf v).length ++
                (payloadOf v ++ values_towire tl)).take 4 = u32be (payloadOf v).length :=
              List.take_left' (u32be_length _)
            have hdrop4 : (u32be (payloadOf v).length ++
                (payloadOf v ++ values_towire tl)).drop 4 =
                payloadOf v ++ values_towire tl :=
              List.drop_left' (u32be_length _)
            have hbe : be32dec (u32be (payloadOf v).length) = (payloadOf v).length := by
              rw [be32dec_u32be]
              exact Nat.mod_eq_of_lt (payloadOf_lt v hwv)
            have hg3 : (payloadOf v).length ≤ (payloadOf v ++ values_towire tl).length := by
              simp
            have htakeP : (payloadOf v ++ values_towire tl).take (payloadOf v).length =
                payloadOf v := List.take_left _ _
            have hdropP : (payloadOf v ++ values_towire tl).drop (payloadOf v).length =
                values_towire tl := List.drop_left _ _
            have hvb : value_body fuel (tagOf v) (payloadOf v) = .ok (convert v) :=
              ihv v hwv (by omega)
            have hrec : list_fromwire fuel (values_towire tl) (acc ++ [convert v]) =
                .ok ((acc ++ [convert v]) ++ convertList tl) :=
              ihl tl _ hwtl (by omega)
            show list_fromwire (fuel + 1) (values_towire (v :: tl)) acc = _
            simp only [values_towire]
            rw [value_towire_eq v]
            simp only [List.cons_append, List.append_assoc]
            simp only [list_fromwire]
            rw [if_pos hg2, htake4, hbe, hdrop4, if_pos hg3, htakeP, hdropP]
            simp only [hvb, hrec]
            simp [convertList, List.append_assoc]

/-- C1 (amended): for every tree of Bytes/Table/List values whose table keys
are at most 255 bytes, valid UTF-8 and distinct within their table, and whose
encoded scopes fit a `u32` (with 4 bytes of headroom for the envelope length
word at top level), decoding the framed encoding reproduces the tree with
entries in order, except that a Bytes payload that is valid UTF-8 comes back
as Text with the same bytes. -/
theorem decode_frame_roundtrip (kvs : List (List Nat × RNDCValue))
    (hw : wfV (.Table kvs) = true)
    (hframe : (entries_towire kvs).length + 4 < 4294967296) :
    decode (frame (table_towire kvs true)) = .ok (convertTable kvs) := by
  simp only [wfV, Bool.and_eq_true, decide_eq_true_eq] at hw
  obtain ⟨⟨hwt, hnd⟩, hlen⟩ := hw
  have htt : table_towire kvs true = entries_towire kvs := by
    simp [table_towire]
  have h84 : 8 + (entries_towire kvs).length - 4 =
      (entries_towire kvs).length + 4 := by omega
  rw [htt]
  unfold frame
  rw [h84]
  simp only [decode]
  rw [List.append_assoc]
  have hg1 : 4 ≤ (u32be ((entries_towire kvs).length + 4) ++
      (u32be 1 ++ entries_towire kvs)).length := by
    simp [u32be_length]
  have ht1 : List.take 4 (u32be ((entries_towire kvs).length + 4) ++
      (u32be 1 ++ entries_towire kvs)) = u32be ((entries_towire kvs).length + 4) :=
    List.take_left' (u32be_length _)
  have hd1 : List.drop 4 (u32be ((entries_towire kvs).length + 4) ++
      (u32be 1 ++ entries_towire kvs)) = u32be 1 ++ entries_towire kvs :=
    List.drop_left' (u32be_length _)
  have hbe1 : be32dec (u32be ((entries_towire kvs).length + 4)) =
      (entries_towire kvs).length + 4 := by
    rw [be32dec_u32be]
    exact Nat.mod_eq_of_lt hframe
  have hsub : (u32be ((entries_towire kvs).length + 4) ++
      (u32be 1 ++ entries_towire kvs)).length - 4 = (entries_towire kvs).length + 4 := by
    simp [u32be_length]
    omega
  rw [if_pos hg1]
  rw [ht1]
  rw [hbe1]
  rw [hsub]
  rw [if_neg (show ¬((entries_towire kvs).length + 4 ≠
        (entries_towire kvs).length + 4) from fun h => h rfl)]
  rw [hd1]
  have hg2 : 4 ≤ (u32be 1 ++ entries_towire kvs).length := by
    simp [u32be_length]
  have ht2 : List.take 4 (u32be 1 ++ entries_towire kvs) = u32be 1 :=
    List.take_left' (u32be_length 1)
  have hd2 : List.drop 4 (u32be 1 ++ entries_towire kvs) = entries_towire kvs :=
    List.drop_left' (u32be_length 1)
  have hbe2 : be32dec (u32be 1) = 1 := rfl
  rw [if_pos hg2, ht2, hbe2, if_neg (show ¬(1 ≠ 1) from fun h => h rfl), hd2]
  have hmain := (fromwire_towire (2 * (entries_towire kvs).length + 1)).2.1 kvs []
    hwt hnd (fun x hx => rfl) (by omega)
  rw [hmain]
  simp

/-- C1 counterexample: the claim fails without the key-size bound: a table
whose single key is 256 bytes long (256 times `a`) encodes with a wrapped
key-length byte of 0, and decoding the framed encoding crashes (the decoder
misreads key bytes as a TLV header whose declared length overruns the scope,
hitting the out-of-range slice panic) instead of reproducing the tree. -/
theorem roundtrip_bigkey_crash :
    decode (frame (table_towire
      [(List.replicate 256 97, RNDCValue.Binary [])] true)) = .crash := by
  have henc : table_towire [(List.replicate 256 97, RNDCValue.Binary [])] true =
      0 :: (List.replicate 256 97 ++ [1, 0, 0, 0, 0]) := by
    simp [table_towire, entries_towire, key_towire, value_towire, binary_towire,
          raw_towire, u32be, MSGTYPE_BINARYDATA]
  rw [henc]
  rfl

theorem decode_frame_roundtrip_witness :
    decode (frame (table_towire
        [([107, 101, 121], RNDCValue.Binary [104, 105]),
         ([98, 105, 110], RNDCValue.Binary [195, 40])] true)) =
      .ok [([107, 101, 121], RNDCPayload.String [104, 105]),
           ([98, 105, 110], RNDCPayload.Binary [195, 40])] := by
  have hu1 : utf8Valid [107, 101, 121] = true := by decide
  have hu2 : utf8Valid [98, 105, 110] = true := by decide
  have hu3 : utf8Valid [104, 105] = true := by decide
  have hu4 : utf8Valid [195, 40] = false := by decide
  have hent : entries_towire
      [([107, 101, 121], RNDCValue.Binary [104, 105]),
       ([98, 105, 110], RNDCValue.Binary [195, 40])] =
      [3, 107, 101, 121, 1, 0, 0, 0, 2, 104, 105,
       3, 98, 105, 110, 1, 0, 0, 0, 2, 195, 40] := by
    simp [entries_towire, key_towire, value_towire, binary_towire, raw_towire,
          u32be, MSGTYPE_BINARYDATA]
  have hw : wfV (.Table
      [([107, 101, 121], RNDCValue.Binary [104, 105]),
       ([98, 105, 110], RNDCValue.Binary [195, 40])]) = true := by
    simp [wfV, wfT, nodupKeys, hent, hu1, hu2]
  have hframe : (entries_towire
      [([107, 101, 121], RNDCValue.Binary [104, 105]),
       ([98, 105, 110], RNDCValue.Binary [195, 40])]).length + 4 < 4294967296 := by
    rw [hent]
    decide
  have h := decode_frame_roundtrip _ hw hframe
  have hconv : convertTable
      [([107, 101, 121], RNDCValue.Binary [104, 105]),
       ([98, 105, 110], RNDCValue.Binary [195, 40])] =
      [([107, 101, 121], RNDCPayload.String [104, 105]),
       ([98, 105, 110], RNDCPayload.Binary [195, 40])] := by
    simp [convertTable, convert, hu3, hu4]
  rw [hconv] at h
  exact h
